import Mathlib

/-!
Verification development for the resource-management core of a teaching OS
kernel: the physical frame table with second-chance (clock) eviction
(`vm/frame.c`, given as `src/unnamed/part_000`) and the namespace layer
(`src/filesys/filesys.c`).

The frame table and the three `filesys_*` operations are shallowly embedded
as executable Lean functions over explicit state records.  External
collaborators that are not part of the given sources (the physical page
allocator, the page-table accessed/dirty bits, the swap store, the directory
store, the inode manager and the free map) are modelled from the spec's
collaborator contracts (§6) as fields of the state records.
-/

/-! # Part I. Frame table and second-chance eviction (`vm/frame.c`) -/

/-- A frame record: `{pagedir, upage, addr}` exactly as in `struct frame`.
Page directories, virtual pages and physical addresses are abstracted as
natural numbers. -/
structure Frame where
  pagedir : Nat
  upage   : Nat
  addr    : Nat
deriving Repr, DecidableEq

/-- Supplemental page-table metadata touched by eviction
(`page->valid`, `page->swap_idx`). -/
structure PageMeta where
  valid    : Bool
  swap_idx : Nat
deriving Repr, DecidableEq

/-- The state the frame-table code operates on.

* `frameTable` is the live set, in append order (`list_push_back`).
* `accessed`, `dirty`, `mapped` model the page-table collaborator
  (`pagedir_is_accessed` / `pagedir_set_accessed` / `pagedir_is_dirty` /
  `pagedir_clear_page`), keyed by `(pagedir, upage)`.
* `pages` models the supplemental page table reached through `page_find`,
  keyed by `upage`.
* `freePool` models the physical allocator (`palloc_get_page` /
  `palloc_free_page`): the pool of currently free physical pages, handed
  out from the front, returned at the back.  The allocator hands out a page
  only from this pool, so it never hands out a page it has not been given
  back — the freshness assumption of the spec.
* `swapCtr` models the swap store: `swap_out` returns the next fresh slot. -/
structure VMState where
  frameTable : List Frame
  accessed   : Nat → Nat → Bool
  dirty      : Nat → Nat → Bool
  mapped     : Nat → Nat → Bool
  pages      : Nat → PageMeta
  freePool   : List Nat
  swapCtr    : Nat

/-- `palloc_get_page`: hand out a free page, or report exhaustion. -/
def palloc_get_page (s : VMState) : Option Nat × VMState :=
  match s.freePool with
  | [] => (none, s)
  | p :: rest => (some p, { s with freePool := rest })

/-- `palloc_free_page`: return a page to the allocator's pool. -/
def palloc_free_page (p : Nat) (s : VMState) : VMState :=
  { s with freePool := s.freePool ++ [p] }

/-- `pagedir_set_accessed (pd, up, false)` as a function update. -/
def clearAccessedBit (acc : Nat → Nat → Bool) (pd up : Nat) : Nat → Nat → Bool :=
  fun x y => if x = pd ∧ y = up then false else acc x y

/-- One forward pass of the clock scan in `frame_evict`, starting at the
head of `l`: a frame whose accessed bit is set gets the bit cleared and the
scan moves on; the first frame found with a clear bit is the victim.
Returns the victim's index together with the accessed bits as they stand
when the victim is found, or `none` if the whole pass cleared every bit. -/
def evictScan (acc : Nat → Nat → Bool) : List Frame → Option (Nat × (Nat → Nat → Bool))
  | [] => none
  | f :: rest =>
    if acc f.pagedir f.upage then
      match evictScan (clearAccessedBit acc f.pagedir f.upage) rest with
      | some (i, a) => some (i + 1, a)
      | none => none
  else
      some (0, acc)

/-- The accessed bits after a full pass over `l` cleared every frame's bit. -/
def clearAllAccessed (acc : Nat → Nat → Bool) : List Frame → (Nat → Nat → Bool)
  | [] => acc
  | f :: rest => clearAllAccessed (clearAccessedBit acc f.pagedir f.upage) rest

/-- The index at which the clock scan of `frame_evict` stops.  The scan
starts at the head of the table (`list_begin`); if the first pass clears
every accessed bit without finding one already clear, the wrap back to
`list_begin` finds the head's bit now clear, so the victim is index 0. -/
def evictChoiceIdx (s : VMState) : Nat :=
  match evictScan s.accessed s.frameTable with
  | some r => r.1
  | none => 0

/-- The accessed bits as they stand when the clock scan stops. -/
def evictChoiceAcc (s : VMState) : Nat → Nat → Bool :=
  match evictScan s.accessed s.frameTable with
  | some r => r.2
  | none => clearAllAccessed s.accessed s.frameTable

/-- `frame_evict`: second-chance eviction.  The C loop starts at
`list_begin (&frame_table)` and wraps from `list_end` back to
`list_begin`.  On an empty table the loop dereferences the list sentinel
and never reaches a victim; this undefined, non-terminating execution is
modelled as `none`.  Otherwise the scan stops at `evictChoiceIdx`; the
victim is written to swap if dirty, unmapped, removed from the table and
its page freed; the result is a retry of `palloc_get_page`. -/
def frame_evict (s : VMState) : Option (Option Nat × VMState) :=
  match s.frameTable with
  | [] => none
  | _ :: _ =>
    let i := evictChoiceIdx s
    let victim := s.frameTable.getD i ⟨0, 0, 0⟩
    let s1 : VMState := { s with accessed := evictChoiceAcc s }
    let s2 : VMState :=
      if s1.dirty victim.pagedir victim.upage then
        { s1 with
          pages := fun u => if u = victim.upage
                     then { valid := false, swap_idx := s1.swapCtr }
                     else s1.pages u,
          swapCtr := s1.swapCtr + 1 }
      else s1
    let s3 : VMState := { s2 with frameTable := s2.frameTable.eraseIdx i }
    let s4 : VMState := { s3 with
      mapped := fun x y => if x = victim.pagedir ∧ y = victim.upage
                  then false else s3.mapped x y }
    let s5 := palloc_free_page victim.addr s4
    some (palloc_get_page s5)

/-- `frame_alloc`: get a page from the allocator, falling back to eviction
on exhaustion; on success append a new frame record for the current
thread's page directory `pd`.  The outer `none` propagates the undefined
execution of `frame_evict` on an empty table; the inner `none` is the
`exhausted` result returned to the caller. -/
def frame_alloc (upage pd : Nat) (s : VMState) : Option (Option Nat × VMState) :=
  let r := palloc_get_page s
  match r.1 with
  | some p =>
      some (some p,
        { r.2 with frameTable := r.2.frameTable ++ [⟨pd, upage, p⟩] })
  | none =>
    match frame_evict r.2 with
    | none => none
    | some (none, s2) => some (none, s2)
    | some (some p, s2) =>
        some (some p,
          { s2 with frameTable := s2.frameTable ++ [⟨pd, upage, p⟩] })

/-- The search-and-unlink loop of `frame_free`: remove the first record
whose physical address is `page`, or return `none` if there is none. -/
def removeAddr (page : Nat) : List Frame → Option (List Frame)
  | [] => none
  | f :: rest =>
    if f.addr = page then some rest
    else (removeAddr page rest).map (f :: ·)

/-- `frame_free`: if some record's address matches, unlink it and return
the page to the allocator; otherwise do nothing. -/
def frame_free (page : Nat) (s : VMState) : VMState :=
  match removeAddr page s.frameTable with
  | none => s
  | some t => { s with frameTable := t, freePool := s.freePool ++ [page] }

/-- Modelled from the spec (§4.4): "Algorithm, starting at the current
cursor position".  The victim a clock scan selects when it begins at
position `start` of the live set (circular order following append order):
scan the table rotated so that `start` comes first.  This is the
spec-side definition used to compare the code against a persistent-cursor
reading; the code itself is `frame_evict` above. -/
def clockVictimFrom (s : VMState) (start : Nat) : Option Frame :=
  let l := s.frameTable.rotate start
  match evictScan s.accessed l with
  | some r => some (l.getD r.1 ⟨0, 0, 0⟩)
  | none => l.head?

/-- The frame-table operations a kernel run interleaves: allocation,
explicit free, and eviction. -/
inductive VMOp where
  | alloc (upage pd : Nat)
  | free  (page : Nat)
  | evict
deriving Repr, DecidableEq

/-- Apply one operation.  A `none` from `frame_alloc`/`frame_evict` is the
undefined non-terminating execution on an empty table: no successor state
exists, so the step is modelled as leaving the state unchanged. -/
def applyOp (op : VMOp) (s : VMState) : VMState :=
  match op with
  | .alloc u pd =>
    match frame_alloc u pd s with
    | some r => r.2
    | none => s
  | .free p => frame_free p s
  | .evict =>
    match frame_evict s with
    | some r => r.2
    | none => s

/-- The frame-table/allocator invariant: every physical address occurs at
most once across the live set and the allocator's free pool.  In
particular the allocator (which hands pages out of `freePool` only) never
hands out a page currently recorded in a frame — the spec's freshness
assumption on the physical allocator. -/
def VMInv (s : VMState) : Prop :=
  (s.frameTable.map Frame.addr ++ s.freePool).Nodup

/-- The key under which the page-table collaborator stores a frame's
accessed/dirty bits. -/
def frameKey (f : Frame) : Nat × Nat := (f.pagedir, f.upage)

/-! # Part II. Namespace operations (`src/filesys/filesys.c`) -/

/-- A file or directory object as the namespace layer sees it: the
is-directory flag and the length passed at creation.  (`struct inode`
plus its open count, which is kept separately in `FSState.openCnt`.) -/
structure Inode where
  isDir : Bool
  size  : Nat
deriving Repr, DecidableEq

/-- An input name after `dir_path_and_name`.

Modelled from the spec (§3): a path "splits into a parent path (possibly
empty, meaning current context directory) and a leaf name"; `path = none`
is the no-separator case in which the C code receives `path == NULL` and
uses the current working directory.  The splitting itself
(`dir_path_and_name`, in the absent `directory.c`) always succeeds apart
from internal allocation failure, which is out of scope. -/
structure PName where
  path : Option (List String)
  leaf : String
deriving Repr, DecidableEq

/-- The state the namespace code operates on.  Sectors are natural
numbers; a directory handle (`struct dir *`) and an inode reference
(`struct inode *`) are both identified with the sector of the backing
object, so `dir_get_inode` is the identity.

Modelled from the spec (§6), since `directory.c`, `inode.c` and
`free-map.c` are not among the given sources:

* `inodes` — the object manager: which sectors hold objects;
* `entries` — the directory store: name → sector, in insertion order;
* `openCnt` — per-object open count (number of live references);
* `freeSectors` — the free map, handing sectors out from the front;
* `cwd` — the calling thread's current working directory
  (`thread_current ()->dir`);
* `dirExtendFails` — whether the directory store currently fails to
  extend a directory, the failure mode of `add(name, location) → bool`. -/
structure FSState where
  inodes         : Nat → Option Inode
  entries        : Nat → List (String × Nat)
  openCnt        : Nat → Nat
  freeSectors    : List Nat
  cwd            : Nat
  dirExtendFails : Bool

/-- The root directory's fixed, well-known sector. -/
def ROOT_DIR_SECTOR : Nat := 1

/-- Raw directory-entry search: the sector the first entry named `name`
in directory `d` points to. -/
def lookupEntry (s : FSState) (d : Nat) (name : String) : Option Nat :=
  ((s.entries d).find? (fun e => e.1 == name)).map (fun e => e.2)

/-- Take one more reference on the object at sector `i`. -/
def incCnt (i : Nat) (s : FSState) : FSState :=
  { s with openCnt := fun x => if x = i then s.openCnt x + 1 else s.openCnt x }

/-- Drop one reference from the object at sector `i`. -/
def decCnt (i : Nat) (s : FSState) : FSState :=
  { s with openCnt := fun x => if x = i then s.openCnt x - 1 else s.openCnt x }

/-- Whether the object at sector `sec` exists and is a directory. -/
def isDirSector (s : FSState) (sec : Nat) : Bool :=
  match s.inodes sec with
  | some ino => ino.isDir
  | none => false

/-- Modelled from the spec (§4.1): "non-empty parent-path resolves via
recursive directory lookup".  Walk the components from directory `cur`;
every intermediate step must find an entry naming a directory. -/
def resolveFrom (s : FSState) : Nat → List String → Option Nat
  | cur, [] => if isDirSector s cur then some cur else none
  | cur, c :: rest =>
    if isDirSector s cur then
      match lookupEntry s cur c with
      | some sec => resolveFrom s sec rest
      | none => none
    else none

/-- Modelled from the spec: `dir_parse` resolves a parent path from the
root and returns an opened reference (one new reference) on the resolved
directory, or `NULL` on resolution failure. -/
def dir_parse (p : List String) (s : FSState) : Option Nat × FSState :=
  match resolveFrom s ROOT_DIR_SECTOR p with
  | some d => (some d, incCnt d s)
  | none => (none, s)

/-- Modelled from the spec (§6): "reopen (increments reference)" — a new
reference on the caller's current working directory. -/
def dir_reopen (s : FSState) : Option Nat × FSState :=
  (some s.cwd, incCnt s.cwd s)

/-- The shared prologue of `filesys_create`/`filesys_open`/
`filesys_remove`: `path == NULL` resolves to a reopened working
directory, otherwise `dir_parse` runs on the parent path. -/
def resolveParent (n : PName) (s : FSState) : Option Nat × FSState :=
  match n.path with
  | none => dir_reopen s
  | some p => dir_parse p s

/-- Modelled from the spec (§6): "close (decrements/releases)".  Closing
a null reference is a no-op. -/
def dir_close (d : Option Nat) (s : FSState) : FSState :=
  match d with
  | none => s
  | some i => decCnt i s

/-- Modelled from the spec (§6): `inode` close — drop the reference. -/
def inode_close (i : Option Nat) (s : FSState) : FSState :=
  match i with
  | none => s
  | some j => decCnt j s

/-- Modelled from the spec (§6): "lookup(name) → object-reference|absent";
a successful lookup hands back an opened reference on the object. -/
def dir_lookup (d : Nat) (name : String) (s : FSState) : Option Nat × FSState :=
  match lookupEntry s d name with
  | some sec => (some sec, incCnt sec s)
  | none => (none, s)

/-- Modelled from the spec (§6): the directory store's `open` on an inode
reference — a directory handle holding its own reference on the object
(released again by `dir_close`). -/
def dir_open (i : Option Nat) (s : FSState) : Option Nat × FSState :=
  match i with
  | none => (none, s)
  | some j => (some j, incCnt j s)

/-- Modelled from the spec (§6): "is_empty → bool". -/
def dir_empty (d : Option Nat) (s : FSState) : Bool :=
  match d with
  | none => false
  | some j => (s.entries j).isEmpty

/-- Modelled from the spec (§6): "is_directory(reference) → bool"; a null
reference is not a directory. -/
def inode_is_dir (s : FSState) (i : Option Nat) : Bool :=
  match i with
  | none => false
  | some j => isDirSector s j

/-- The open count field read by `filesys_remove`'s busy check
(`inode->open_cnt`). -/
def inode_open_cnt (s : FSState) (i : Option Nat) : Nat :=
  match i with
  | none => 0
  | some j => s.openCnt j

/-- Modelled from the spec (§6): "remove(name) → bool" — unlink the first
entry named `name`, failing when it is absent. -/
def dir_remove (d : Nat) (name : String) (s : FSState) : Bool × FSState :=
  match lookupEntry s d name with
  | some _ =>
    (true, { s with entries := fun x =>
      if x = d then (s.entries x).eraseP (fun e => e.1 == name)
      else s.entries x })
  | none => (false, s)

/-- Modelled from the spec (§6): "allocate(count) → location|failure" for
one sector, handing sectors out from the front of the free map. -/
def free_map_allocate (s : FSState) : Option Nat × FSState :=
  match s.freeSectors with
  | [] => (none, s)
  | sec :: rest => (some sec, { s with freeSectors := rest })

/-- Modelled from the spec (§6): "create(location, size, is_directory) →
bool" for a plain file — register the object at its sector. -/
def inode_create (sec : Nat) (size : Nat) (isdir : Bool) (s : FSState) : Bool × FSState :=
  (true, { s with inodes := fun x => if x = sec then some ⟨isdir, size⟩ else s.inodes x })

/-- Modelled from the spec (§4.1): initialize sector `sec` as an empty
directory ("zero entries initially"; `entryCnt` is the preallocated entry
capacity hint, which the model does not bound adds by). -/
def dir_create (sec : Nat) (entryCnt : Nat) (s : FSState) : Bool × FSState :=
  (true, { s with
    inodes := fun x => if x = sec then some ⟨true, entryCnt⟩ else s.inodes x,
    entries := fun x => if x = sec then [] else s.entries x })

/-- Modelled from the spec (§6): "add(name, location) → bool" — link a new
entry, failing when the name is already present or the store cannot
extend the directory (`dirExtendFails`). -/
def dir_add (d : Nat) (name : String) (sec : Nat) (s : FSState) : Bool × FSState :=
  if s.dirExtendFails then (false, s)
  else
    match lookupEntry s d name with
    | some _ => (false, s)
    | none =>
      (true, { s with entries := fun x =>
        if x = d then s.entries x ++ [(name, sec)] else s.entries x })

/-- Modelled from the spec: `file_open` wraps an inode reference into a
file handle (taking over the reference), failing on a null inode. -/
def file_open (i : Option Nat) (s : FSState) : Option Nat × FSState :=
  (i, s)

/-- `filesys_create (name, initial_size, is_dir)`, transliterated from
`filesys.c` lines 52–97.  Resolve the parent; on a fresh leaf allocate a
sector, initialize the object, and link it (`success &= dir_add` — the
link is attempted even if initialization failed, and a failed link rolls
nothing back); on an existing leaf close the found handle and fail; the
parent reference is closed on every resolved path. -/
def filesys_create (name : PName) (initial_size : Nat) (is_dir : Bool) (s : FSState) :
    Bool × FSState :=
  let rp := resolveParent name s
  match rp.1 with
  | none => (false, rp.2)
  | some parent =>
    let lk := dir_lookup parent name.leaf rp.2
    match lk.1 with
    | none =>
      let fa := free_map_allocate lk.2
      match fa.1 with
      | none => (false, dir_close (some parent) fa.2)
      | some sector =>
        let ic := if is_dir then dir_create sector 0 fa.2
                  else inode_create sector initial_size false fa.2
        let ad := dir_add parent name.leaf sector ic.2
        (ic.1 && ad.1, dir_close (some parent) ad.2)
    | some ino =>
      (false, dir_close (some parent) (inode_close (some ino) lk.2))

/-- `filesys_open (name)`, transliterated from `filesys.c` lines 104–132.
An empty leaf returns a handle on the resolved directory itself — without
closing the reference taken during resolution; otherwise the leaf is
looked up, the directory closed, and the looked-up reference (null when
absent) wrapped by `file_open`. -/
def filesys_open (name : PName) (s : FSState) : Option Nat × FSState :=
  let rp := resolveParent name s
  match rp.1 with
  | none => (none, rp.2)
  | some dir =>
    if name.leaf = "" then
      file_open (some dir) rp.2
    else
      let lk := dir_lookup dir name.leaf rp.2
      file_open lk.1 (dir_close (some dir) lk.2)

/-- `filesys_remove (name)`, transliterated from `filesys.c` lines
138–194.  An empty leaf (the root) returns false — without closing the
resolved directory; a leaf equal to the working directory's object fails
after closing both references; a directory leaf must be empty and have
open count ≤ 1 at the check; a file leaf goes through `dir_remove`; all
paths past the root check close both the parent reference and the
looked-up reference before returning. -/
def filesys_remove (name : PName) (s : FSState) : Bool × FSState :=
  let rp := resolveParent name s
  match rp.1 with
  | none => (false, rp.2)
  | some dir =>
    if name.leaf = "" then
      (false, rp.2)
    else
      let lk := dir_lookup dir name.leaf rp.2
      if lk.1 = some s.cwd then
        (false, inode_close lk.1 (dir_close (some dir) lk.2))
      else
        let br : Bool × FSState :=
          if inode_is_dir lk.2 lk.1 then
            let od := dir_open lk.1 lk.2
            if dir_empty od.1 od.2 then
              let s1 := dir_close od.1 od.2
              if inode_open_cnt s1 lk.1 ≤ 1 then dir_remove dir name.leaf s1
              else (false, s1)
            else (false, dir_close od.1 od.2)
          else dir_remove dir name.leaf lk.2
        (br.1, inode_close lk.1 (dir_close (some dir) br.2))

/-! # Concrete states used by counterexamples and witnesses -/

/-- Three distinct frames owned by page directory 1. -/
def F1 : Frame := ⟨1, 10, 100⟩

def F2 : Frame := ⟨1, 20, 200⟩

def F3 : Frame := ⟨1, 30, 300⟩

/-- A live set `[F1, F2, F3]` whose head is recently accessed, with an
exhausted physical allocator. -/
def sClock : VMState :=
  { frameTable := [F1, F2, F3]
    accessed := fun x y => x = 1 ∧ y = 10
    dirty := fun _ _ => false
    mapped := fun _ _ => true
    pages := fun _ => ⟨true, 0⟩
    freePool := []
    swapCtr := 0 }

/-- The empty frame table with an exhausted physical allocator. -/
def sExhausted : VMState :=
  { frameTable := []
    accessed := fun _ _ => false
    dirty := fun _ _ => false
    mapped := fun _ _ => true
    pages := fun _ => ⟨true, 0⟩
    freePool := []
    swapCtr := 0 }

/-- A one-frame live set with a clear accessed bit and empty pool. -/
def sOneFrame : VMState :=
  { frameTable := [F1]
    accessed := fun _ _ => false
    dirty := fun _ _ => false
    mapped := fun _ _ => true
    pages := fun _ => ⟨true, 0⟩
    freePool := []
    swapCtr := 0 }

/-- A fresh machine: no frames, two free physical pages. -/
def sFresh : VMState :=
  { frameTable := []
    accessed := fun _ _ => false
    dirty := fun _ _ => false
    mapped := fun _ _ => true
    pages := fun _ => ⟨true, 0⟩
    freePool := [7, 8]
    swapCtr := 0 }

/-- A small file system: the root (sector 1, the working directory, one
live reference) contains an empty subdirectory `"a"` (sector 2, one
concurrent holder) and a file `"f"` (sector 3); sectors 10 and 11 are
free. -/
def fsW : FSState :=
  { inodes := fun x =>
      if x = 1 then some ⟨true, 0⟩
      else if x = 2 then some ⟨true, 0⟩
      else if x = 3 then some ⟨false, 5⟩
      else none
    entries := fun x => if x = 1 then [("a", 2), ("f", 3)] else []
    openCnt := fun x => if x = 1 then 1 else if x = 2 then 1 else 0
    freeSectors := [10, 11]
    cwd := 1
    dirExtendFails := false }

/-- `fsW` with a directory store that cannot extend any directory, so
every `dir_add` fails. -/
def fsLink : FSState :=
  { fsW with dirExtendFails := true }

/-- The root path: parent path `[]`, empty leaf. -/
def nRoot : PName := ⟨some [], ""⟩

/-- `"/a"`. -/
def nA : PName := ⟨some [], "a"⟩

/-- `"/f"`. -/
def nF : PName := ⟨some [], "f"⟩

/-- `"/new"`: a fresh leaf in the root. -/
def nNew : PName := ⟨some [], "new"⟩

/-- `"/nope"`: an absent leaf in the root. -/
def nMissing : PName := ⟨some [], "nope"⟩

/-! # Lemmas: the clock scan -/

theorem evictScan_idx_lt :
    ∀ (l : List Frame) (acc : Nat → Nat → Bool) (i : Nat) (a : Nat → Nat → Bool),
      evictScan acc l = some (i, a) → i < l.length := by
  intro l
  induction l with
  | nil => intro acc i a h; simp [evictScan] at h
  | cons f rest ih =>
    intro acc i a h
    simp only [evictScan] at h
    by_cases hf : acc f.pagedir f.upage
    · rw [if_pos hf] at h
      cases hscan : evictScan (clearAccessedBit acc f.pagedir f.upage) rest with
      | none => rw [hscan] at h; exact absurd h (by simp)
      | some r =>
        rw [hscan] at h
        obtain ⟨hi, -⟩ := Prod.mk.injEq .. ▸ (Option.some.injEq .. ▸ h)
        have := ih _ r.1 r.2 (by rw [hscan])
        simp only [List.length_cons]
        omega
    · rw [if_neg hf] at h
      obtain ⟨hi, -⟩ := Prod.mk.injEq .. ▸ (Option.some.injEq .. ▸ h)
      simp only [List.length_cons]
      omega

theorem evictChoiceIdx_lt (s : VMState) (h : s.frameTable ≠ []) :
    evictChoiceIdx s < s.frameTable.length := by
  unfold evictChoiceIdx
  cases hscan : evictScan s.accessed s.frameTable with
  | some r => exact evictScan_idx_lt _ _ r.1 r.2 (by rw [hscan])
  | none => simpa using List.length_pos.mpr h

theorem findIdx_congr_of_mem {α : Type} {p q : α → Bool} :
    ∀ {l : List α}, (∀ x ∈ l, p x = q x) → l.findIdx p = l.findIdx q := by
  intro l
  induction l with
  | nil => intro _; rfl
  | cons x xs ih =>
    intro h
    rw [List.findIdx_cons, List.findIdx_cons, h x (by simp),
      ih (fun y hy => h y (by simp [hy]))]

theorem clearAccessedBit_ne_key {acc : Nat → Nat → Bool} {pd up : Nat} {g : Frame}
    (h : frameKey g ≠ (pd, up)) :
    clearAccessedBit acc pd up g.pagedir g.upage = acc g.pagedir g.upage := by
  have : ¬(g.pagedir = pd ∧ g.upage = up) := by
    intro ⟨h1, h2⟩
    exact h (by simp [frameKey, h1, h2])
  simp [clearAccessedBit, this]

/-- With pairwise distinct `(pagedir, upage)` keys, the first pass of the
clock scan stops exactly at the first frame whose accessed bit was clear
when the scan started. -/
theorem evictScan_eq_findIdx :
    ∀ (l : List Frame) (acc : Nat → Nat → Bool),
      (l.map frameKey).Nodup →
      (∃ f ∈ l, acc f.pagedir f.upage = false) →
      ∃ a, evictScan acc l =
        some (l.findIdx (fun f => !acc f.pagedir f.upage), a) := by
  intro l
  induction l with
  | nil => intro acc _ hex; simp at hex
  | cons f rest ih =>
    intro acc hkeys hex
    by_cases hf : acc f.pagedir f.upage
    · have hkeys' : frameKey f ∉ rest.map frameKey ∧ (rest.map frameKey).Nodup := by
        simpa [List.nodup_cons] using hkeys
      have hagree : ∀ g ∈ rest,
          clearAccessedBit acc f.pagedir f.upage g.pagedir g.upage
            = acc g.pagedir g.upage := by
        intro g hg
        refine clearAccessedBit_ne_key ?_
        intro he
        exact hkeys'.1 (by
          have : frameKey g = frameKey f := by simp [frameKey] at he ⊢; exact he
          exact this ▸ List.mem_map_of_mem frameKey hg)
      have hex' : ∃ g ∈ rest,
          clearAccessedBit acc f.pagedir f.upage g.pagedir g.upage = false := by
        obtain ⟨g, hg, hgf⟩ := hex
        rcases List.mem_cons.mp hg with rfl | hg'
        · exact absurd hgf (by simp [hf])
        · exact ⟨g, hg', by rw [hagree g hg']; exact hgf⟩
      obtain ⟨a, ha⟩ := ih _ hkeys'.2 hex'
      refine ⟨a, ?_⟩
      simp only [evictScan, if_pos hf, ha]
      rw [List.findIdx_cons]
      have hpf : (fun g => !acc g.pagedir g.upage) f = false := by simp [hf]
      simp only [hpf, cond_false]
      have : rest.findIdx (fun g => !clearAccessedBit acc f.pagedir f.upage g.pagedir g.upage)
          = rest.findIdx (fun g => !acc g.pagedir g.upage) :=
        findIdx_congr_of_mem (fun g hg => by rw [hagree g hg])
      rw [this]
    · refine ⟨acc, ?_⟩
      simp only [evictScan, if_neg hf]
      rw [List.findIdx_cons]
      have hpf : (fun g => !acc g.pagedir g.upage) f = true := by simp [hf]
      simp only [hpf, cond_true]


theorem palloc_get_page_eq (s : VMState) (q : Nat) (qs : List Nat) (h : s.freePool = q :: qs) :
    palloc_get_page s = (some q, { s with freePool := qs }) := by
  unfold palloc_get_page
  rw [h]

/-- What one non-empty eviction does: it returns `some` freed-and-reissued
page, erases exactly the frame at the scan's stopping index from the live
set, and the returned page together with the remaining pool is the old
pool followed by the victim's address. -/
theorem frame_evict_eq (s : VMState) (hne : s.frameTable ≠ []) :
    ∃ p s', frame_evict s = some (some p, s') ∧
      s'.frameTable = s.frameTable.eraseIdx (evictChoiceIdx s) ∧
      p :: s'.freePool = s.freePool ++
        [(s.frameTable.getD (evictChoiceIdx s) ⟨0, 0, 0⟩).addr] ∧
      s'.accessed = evictChoiceAcc s := by
  rcases hft : s.frameTable with - | ⟨f0, rest⟩
  · exact absurd hft hne
  · unfold frame_evict
    rw [hft]
    simp only []
    generalize (f0 :: rest).getD (evictChoiceIdx s) ⟨0, 0, 0⟩ = v
    by_cases hd : s.dirty v.pagedir v.upage <;>
      [rw [if_pos hd]; rw [if_neg hd]] <;>
      cases hfp : s.freePool <;>
      · simp only [palloc_free_page, palloc_get_page, List.nil_append, List.cons_append]
        refine ⟨_, _, rfl, rfl, ?_, rfl⟩
        simp

/-! # Lemmas: address bookkeeping as permutations -/

theorem perm_getD_cons_eraseIdx {α : Type} (d : α) :
    ∀ (l : List α) (i : Nat), i < l.length →
      l.Perm (l.getD i d :: l.eraseIdx i) := by
  intro l
  induction l with
  | nil => intro i h; simp at h
  | cons x xs ih =>
    intro i h
    cases i with
    | zero => simp
    | succ j =>
      have hj : j < xs.length := by simpa using h
      have h1 : (x :: xs).Perm (x :: (xs.getD j d :: xs.eraseIdx j)) := (ih j hj).cons x
      have h2 : (x :: (xs.getD j d :: xs.eraseIdx j)).Perm
          (xs.getD j d :: x :: xs.eraseIdx j) := List.Perm.swap _ _ _
      simpa using h1.trans h2

theorem removeAddr_perm (page : Nat) :
    ∀ (l t : List Frame), removeAddr page l = some t →
      (l.map Frame.addr).Perm (page :: t.map Frame.addr) := by
  intro l
  induction l with
  | nil => intro t h; simp [removeAddr] at h
  | cons f rest ih =>
    intro t h
    simp only [removeAddr] at h
    by_cases hf : f.addr = page
    · rw [if_pos hf] at h
      cases h
      rw [List.map_cons, hf]
    · rw [if_neg hf] at h
      cases hr : removeAddr page rest with
      | none => rw [hr] at h; exact absurd h (by simp)
      | some t' =>
        rw [hr] at h
        simp only [Option.map, Option.some.injEq] at h
        subst h
        have h1 : ((f :: rest).map Frame.addr).Perm
            (f.addr :: (page :: t'.map Frame.addr)) := by
          rw [List.map_cons]
          exact (ih t' hr).cons f.addr
        have h2 : (f.addr :: (page :: t'.map Frame.addr)).Perm
            (page :: f.addr :: t'.map Frame.addr) := List.Perm.swap _ _ _
        simpa using h1.trans h2

theorem frame_evict_perm (s : VMState) (pg : Option Nat) (s' : VMState)
    (h : frame_evict s = some (pg, s')) :
    ∃ q, pg = some q ∧
      (q :: (s'.frameTable.map Frame.addr ++ s'.freePool)).Perm
        (s.frameTable.map Frame.addr ++ s.freePool) := by
  have hne : s.frameTable ≠ [] := by
    intro hnil
    unfold frame_evict at h
    rw [hnil] at h
    exact absurd h (by simp)
  obtain ⟨p, s'', heq, htab, hpool, -⟩ := frame_evict_eq s hne
  rw [heq] at h
  have h' := Option.some.inj h
  have hpg : pg = some p := (congrArg Prod.fst h').symm
  have hs : s' = s'' := (congrArg Prod.snd h').symm
  subst hs
  refine ⟨p, hpg, ?_⟩
  have hi := evictChoiceIdx_lt s hne
  have perm2 : (s.frameTable.map Frame.addr).Perm
      ((s.frameTable.getD (evictChoiceIdx s) ⟨0, 0, 0⟩).addr
        :: (s.frameTable.eraseIdx (evictChoiceIdx s)).map Frame.addr) := by
    simpa using
      (perm_getD_cons_eraseIdx ⟨0, 0, 0⟩ s.frameTable (evictChoiceIdx s) hi).map Frame.addr
  have step1 : (p :: (s'.frameTable.map Frame.addr ++ s'.freePool)).Perm
      (s'.frameTable.map Frame.addr ++ (p :: s'.freePool)) := List.perm_middle.symm
  have step2 : s'.frameTable.map Frame.addr ++ (p :: s'.freePool)
      = (s'.frameTable.map Frame.addr ++ s.freePool) ++
        [(s.frameTable.getD (evictChoiceIdx s) ⟨0, 0, 0⟩).addr] := by
    rw [hpool, List.append_assoc]
  have step3 : ((s'.frameTable.map Frame.addr ++ s.freePool) ++
      [(s.frameTable.getD (evictChoiceIdx s) ⟨0, 0, 0⟩).addr]).Perm
      ((s.frameTable.getD (evictChoiceIdx s) ⟨0, 0, 0⟩).addr ::
        (s'.frameTable.map Frame.addr ++ s.freePool)) :=
    List.perm_append_singleton _ _
  have step4 : ((s.frameTable.getD (evictChoiceIdx s) ⟨0, 0, 0⟩).addr ::
      (s'.frameTable.map Frame.addr ++ s.freePool)).Perm
      (s.frameTable.map Frame.addr ++ s.freePool) := by
    rw [htab]
    exact (perm2.append_right s.freePool).symm
  exact step1.trans (by rw [step2]; exact step3.trans step4)

/-- Every step of the system preserves the exclusivity invariant. -/
theorem applyOp_inv (op : VMOp) (s : VMState) (h : VMInv s) : VMInv (applyOp op s) := by
  unfold VMInv at h
  cases op with
  | free p =>
    show VMInv (frame_free p s)
    unfold frame_free
    cases hr : removeAddr p s.frameTable with
    | none => exact h
    | some t =>
      show (t.map Frame.addr ++ (s.freePool ++ [p])).Nodup
      have hperm := removeAddr_perm p s.frameTable t hr
      have hperm2 : (t.map Frame.addr ++ (s.freePool ++ [p])).Perm
          (s.frameTable.map Frame.addr ++ s.freePool) := by
        have e1 : t.map Frame.addr ++ (s.freePool ++ [p])
            = (t.map Frame.addr ++ s.freePool) ++ [p] := by rw [List.append_assoc]
        have p1 : ((t.map Frame.addr ++ s.freePool) ++ [p]).Perm
            (p :: (t.map Frame.addr ++ s.freePool)) := List.perm_append_singleton _ _
        have p2 : (p :: (t.map Frame.addr ++ s.freePool)).Perm
            (s.frameTable.map Frame.addr ++ s.freePool) :=
          (hperm.append_right s.freePool).symm
        rw [e1]
        exact p1.trans p2
      exact hperm2.symm.nodup h
  | evict =>
    show VMInv (match frame_evict s with | some r => r.2 | none => s)
    cases hev : frame_evict s with
    | none => exact h
    | some r =>
      obtain ⟨q, -, hperm⟩ := frame_evict_perm s r.1 r.2 (by rw [hev])
      show (r.2.frameTable.map Frame.addr ++ r.2.freePool).Nodup
      exact (hperm.symm.nodup h).of_cons
  | alloc u pd =>
    show VMInv (match frame_alloc u pd s with | some r => r.2 | none => s)
    unfold frame_alloc
    cases hfp : s.freePool with
    | cons p rest =>
      rw [palloc_get_page_eq s p rest hfp]
      show (((s.frameTable ++ [Frame.mk pd u p]).map Frame.addr) ++ rest).Nodup
      have e1 : ((s.frameTable ++ [Frame.mk pd u p]).map Frame.addr) ++ rest
          = s.frameTable.map Frame.addr ++ (p :: rest) := by
        rw [List.map_append, List.append_assoc]
        rfl
      rw [e1, ← hfp]
      exact h
    | nil =>
      have hpal : palloc_get_page s = (none, s) := by
        unfold palloc_get_page
        rw [hfp]
      rw [hpal]
      simp only []
      cases hev : frame_evict s with
      | none => exact h
      | some r =>
        obtain ⟨pg, s2⟩ := r
        obtain ⟨q, hpg, hperm⟩ := frame_evict_perm s pg s2 (by rw [hev])
        subst hpg
        have hn : (q :: (s2.frameTable.map Frame.addr ++ s2.freePool)).Nodup :=
          hperm.symm.nodup h
        show (((s2.frameTable ++ [Frame.mk pd u q]).map Frame.addr) ++ s2.freePool).Nodup
        have e1 : ((s2.frameTable ++ [Frame.mk pd u q]).map Frame.addr) ++ s2.freePool
            = s2.frameTable.map Frame.addr ++ (q :: s2.freePool) := by
          rw [List.map_append, List.append_assoc]
          rfl
        rw [e1]
        exact List.perm_middle.symm.nodup hn

/-! # Claim C1: the scan cursor -/

/-- C1, counterexample.  The claim says every eviction call begins
inspecting at the position reached by the previous call.  Starting from
`sClock` (`[F1, F2, F3]`, only `F1` recently accessed), the first call
clears `F1`'s bit and evicts `F2`; a persistent cursor would stand on
`F3`, and the spec-side scan-from-cursor (`clockVictimFrom _ 1`) indeed
selects `F3` — but the code's second call evicts `F1`, leaving `[F3]`:
the code restarts at the first record, not at the cursor. -/
theorem frame_evict_cursor_counterexample :
    ((frame_evict sClock).map (fun r => (frame_evict r.2).map (fun r2 => r2.2.frameTable))
        = some (some [F3]))
  ∧ ((frame_evict sClock).map (fun r => clockVictimFrom r.2 1) = some (some F3))
  ∧ F1 ≠ F3 := by
  refine ⟨by decide, by decide, by decide⟩

/-- C1, amended: `frame_evict` keeps no cursor across invocations — every
call begins inspecting at the first record of the live set (in append
order).  Concretely, whenever the head record's accessed bit is clear the
head itself is the victim, whatever any earlier call did: the post-state
live set is exactly the tail. -/
theorem frame_evict_restarts_at_first_record (s : VMState) (f : Frame) (rest : List Frame)
    (ht : s.frameTable = f :: rest)
    (ha : s.accessed f.pagedir f.upage = false) :
    (frame_evict s).map (fun r => r.2.frameTable) = some rest := by
  have hscan : evictScan s.accessed s.frameTable = some (0, s.accessed) := by
    rw [ht]
    simp [evictScan, ha]
  have hidx : evictChoiceIdx s = 0 := by
    unfold evictChoiceIdx
    rw [hscan]
  have hne : s.frameTable ≠ [] := by rw [ht]; simp
  obtain ⟨p, s', heq, htab, -, -⟩ := frame_evict_eq s hne
  rw [heq]
  simp only [Option.map]
  rw [htab, hidx, ht]
  simp

/-- C1, witness for the amended statement at `sOneFrame`. -/
theorem frame_evict_restarts_at_first_record_witness :
    (frame_evict sOneFrame).map (fun r => r.2.frameTable) = some [] :=
  frame_evict_restarts_at_first_record sOneFrame F1 [] (by decide) (by decide)

/-! # Claim C2: clock progress -/

/-- C2.  For a live set with pairwise-distinct `(pagedir, upage)` keys
(the spec's "every resident virtual page has exactly one frame record")
containing at least one frame with a clear accessed bit, eviction:
terminates with the victim found during the first pass (the victim index
is below the table length, so at most one full cycle is inspected);
selects as victim the *first* frame in scan order whose accessed bit is
clear — the selection reads only accessed bits, never the dirty bit;
removes exactly that one record; and frees exactly one physical page, the
victim's, which together with the returned page balances the allocator's
pool. -/
theorem frame_evict_clock_progress (s : VMState)
    (hkeys : (s.frameTable.map frameKey).Nodup)
    (hex : ∃ f ∈ s.frameTable, s.accessed f.pagedir f.upage = false) :
    (s.frameTable.findIdx (fun f => !s.accessed f.pagedir f.upage)
        < s.frameTable.length)
  ∧ ∃ p s', frame_evict s = some (some p, s') ∧
      s'.frameTable = s.frameTable.eraseIdx
        (s.frameTable.findIdx (fun f => !s.accessed f.pagedir f.upage)) ∧
      s'.frameTable.length + 1 = s.frameTable.length ∧
      p :: s'.freePool = s.freePool ++
        [(s.frameTable.getD
            (s.frameTable.findIdx (fun f => !s.accessed f.pagedir f.upage))
            ⟨0, 0, 0⟩).addr] := by
  obtain ⟨a, hscan⟩ := evictScan_eq_findIdx s.frameTable s.accessed hkeys hex
  have hidx : evictChoiceIdx s
      = s.frameTable.findIdx (fun f => !s.accessed f.pagedir f.upage) := by
    unfold evictChoiceIdx
    rw [hscan]
  have hne : s.frameTable ≠ [] := by
    obtain ⟨f, hf, -⟩ := hex
    exact List.ne_nil_of_mem hf
  have hlt : s.frameTable.findIdx (fun f => !s.accessed f.pagedir f.upage)
      < s.frameTable.length := by
    apply List.findIdx_lt_length_of_exists
    obtain ⟨f, hf, hfa⟩ := hex
    exact ⟨f, hf, by simp [hfa]⟩
  refine ⟨hlt, ?_⟩
  obtain ⟨p, s', heq, htab, hpool, -⟩ := frame_evict_eq s hne
  rw [hidx] at htab hpool
  refine ⟨p, s', heq, htab, ?_, hpool⟩
  rw [htab, List.length_eraseIdx_of_lt hlt]
  have := List.length_pos.mpr hne
  omega

/-- C2, witness at `sClock`: the victim is `F2`, the first frame in scan
order with a clear bit. -/
theorem frame_evict_clock_progress_witness :
    (sClock.frameTable.findIdx (fun f => !sClock.accessed f.pagedir f.upage)
        < sClock.frameTable.length)
  ∧ ∃ p s', frame_evict sClock = some (some p, s') ∧
      s'.frameTable = sClock.frameTable.eraseIdx
        (sClock.frameTable.findIdx (fun f => !sClock.accessed f.pagedir f.upage)) ∧
      s'.frameTable.length + 1 = sClock.frameTable.length ∧
      p :: s'.freePool = sClock.freePool ++
        [(sClock.frameTable.getD
            (sClock.frameTable.findIdx (fun f => !sClock.accessed f.pagedir f.upage))
            ⟨0, 0, 0⟩).addr] :=
  frame_evict_clock_progress sClock (by decide) ⟨F2, by decide, by decide⟩

/-! # Claim C3: the caller-side guard on eviction -/

/-- C3, counterexample.  The claim says `frame_alloc` guards the call so
eviction is never entered with an empty frame table.  There is no guard:
with an exhausted allocator and an empty table, `frame_alloc` calls
`frame_evict` unconditionally, and the eviction loop never terminates
(modelled as `none` — no result state exists). -/
theorem frame_alloc_no_guard_counterexample :
    sExhausted.frameTable = [] ∧ frame_alloc 10 1 sExhausted = none :=
  ⟨rfl, rfl⟩

/-- C3, amended: when the physical allocator reports exhaustion,
`frame_alloc` invokes `frame_evict` unconditionally; with an empty frame
table the call has no defined result (the scan loop never terminates). -/
theorem frame_alloc_unguarded (u pd : Nat) (s : VMState)
    (hpool : s.freePool = []) (htab : s.frameTable = []) :
    frame_alloc u pd s = none := by
  unfold frame_alloc
  have hpal : palloc_get_page s = (none, s) := by
    unfold palloc_get_page
    rw [hpool]
  rw [hpal]
  simp only []
  unfold frame_evict
  rw [htab]

/-- C3, witness for the amended statement. -/
theorem frame_alloc_unguarded_witness : frame_alloc 11 2 sExhausted = none :=
  frame_alloc_unguarded 11 2 sExhausted rfl rfl

/-! # Claim C9: frame exclusivity -/

/-- C9.  After any sequence of allocate/free/evict operations from a
state satisfying the exclusivity invariant (in particular the physical
allocator's pool being disjoint from the live set, so the allocator never
hands out a currently-assigned page), no physical address appears in more
than one frame record of the live set. -/
theorem frame_exclusivity (s0 : VMState) (ops : List VMOp) (h : VMInv s0) :
    ((ops.foldl (fun s op => applyOp op s) s0).frameTable.map Frame.addr).Nodup := by
  have hinv : VMInv (ops.foldl (fun s op => applyOp op s) s0) := by
    induction ops generalizing s0 with
    | nil => exact h
    | cons op rest ih => exact ih (applyOp op s0) (applyOp_inv op s0 h)
  exact hinv.of_append_left

/-- C9, witness for a run mixing allocation, double free, and eviction. -/
theorem frame_exclusivity_witness :
    ((([VMOp.alloc 10 1, VMOp.alloc 20 1, VMOp.free 7, VMOp.free 7, VMOp.evict].foldl
        (fun s op => applyOp op s) sFresh).frameTable.map Frame.addr)).Nodup :=
  frame_exclusivity sFresh
    [VMOp.alloc 10 1, VMOp.alloc 20 1, VMOp.free 7, VMOp.free 7, VMOp.evict]
    (by unfold VMInv; decide)

/-! # Lemmas: namespace layer bookkeeping -/

theorem resolveParent_eq (n : PName) (s : FSState) (d : Nat)
    (h : (resolveParent n s).1 = some d) :
    resolveParent n s = (some d, incCnt d s) := by
  unfold resolveParent dir_reopen dir_parse at h ⊢
  cases hp : n.path with
  | none =>
    rw [hp] at h
    simp only [] at h
    cases h
    rfl
  | some p =>
    rw [hp] at h
    simp only [] at h ⊢
    cases hr : resolveFrom s ROOT_DIR_SECTOR p with
    | none =>
      rw [hr] at h
      exact absurd h (by simp)
    | some e =>
      rw [hr] at h
      simp only [] at h ⊢
      cases h
      rfl

theorem resolveParent_none (n : PName) (s : FSState)
    (h : (resolveParent n s).1 = none) : (resolveParent n s).2 = s := by
  unfold resolveParent dir_reopen dir_parse at h ⊢
  cases hp : n.path with
  | none =>
    rw [hp] at h
    exact absurd h (by simp)
  | some p =>
    rw [hp] at h
    simp only [] at h ⊢
    cases hr : resolveFrom s ROOT_DIR_SECTOR p with
    | none => rfl
    | some e =>
      rw [hr] at h
      exact absurd h (by simp)

theorem dir_remove_openCnt (d : Nat) (nm : String) (s : FSState) :
    ((dir_remove d nm s).2).openCnt = s.openCnt := by
  unfold dir_remove
  cases lookupEntry s d nm <;> rfl

theorem dir_remove_inodes (d : Nat) (nm : String) (s : FSState) :
    ((dir_remove d nm s).2).inodes = s.inodes := by
  unfold dir_remove
  cases lookupEntry s d nm <;> rfl

theorem lookupEntry_incCnt (i d : Nat) (nm : String) (s : FSState) :
    lookupEntry (incCnt i s) d nm = lookupEntry s d nm := rfl

/-- C4, amended.  For every input name with a *non-empty* leaf,
`filesys_remove` releases both the parent directory reference and the
looked-up handle on every control path — the working-directory, non-empty
directory, busy-directory, plain-file and not-found paths all leave every
object's open count exactly as it was.  The claim's remaining path, root
removal (empty leaf), does *not* release the parent reference — see the
counterexample. -/
theorem filesys_remove_balanced (s : FSState) (n : PName) (h : n.leaf ≠ "") :
    ((filesys_remove n s).2).openCnt = s.openCnt := by
  unfold filesys_remove
  simp only []
  cases hrp : (resolveParent n s).1 with
  | none =>
    simp only []
    rw [resolveParent_none n s hrp]
  | some d =>
    rw [resolveParent_eq n s d hrp]
    simp only []
    rw [if_neg h]
    unfold dir_lookup
    rw [lookupEntry_incCnt]
    cases hle : lookupEntry s d n.leaf with
    | none =>
      simp only []
      unfold inode_is_dir dir_close inode_close
      simp only []
      split_ifs <;>
        (funext x
         simp [dir_remove_openCnt, decCnt, incCnt]) <;>
        split_ifs <;> omega
    | some ino =>
      simp only []
      unfold inode_is_dir dir_open dir_close inode_close dir_empty inode_open_cnt
      simp only []
      split_ifs <;>
        (funext x
         simp [dir_remove_openCnt, decCnt, incCnt]) <;>
        split_ifs <;> omega

theorem isDirSector_congr (s s' : FSState) (hI : s'.inodes = s.inodes) (j : Nat) :
    isDirSector s' j = isDirSector s j := by
  unfold isDirSector
  rw [hI]

theorem lookupEntry_congr (s s' : FSState) (hE : s'.entries = s.entries) (d : Nat)
    (nm : String) : lookupEntry s' d nm = lookupEntry s d nm := by
  unfold lookupEntry
  rw [hE]

theorem resolveFrom_congr (s s' : FSState) (hE : s'.entries = s.entries)
    (hI : s'.inodes = s.inodes) :
    ∀ (p : List String) (cur : Nat), resolveFrom s' cur p = resolveFrom s cur p := by
  intro p
  induction p with
  | nil =>
    intro cur
    unfold resolveFrom
    rw [isDirSector_congr s s' hI]
  | cons c rest ih =>
    intro cur
    unfold resolveFrom
    rw [isDirSector_congr s s' hI, lookupEntry_congr s s' hE]
    cases lookupEntry s cur c with
    | none => rfl
    | some mid => simp only []; rw [ih mid]

theorem resolveParent_fst_congr (s s' : FSState) (hE : s'.entries = s.entries)
    (hI : s'.inodes = s.inodes) (hC : s'.cwd = s.cwd) (n : PName) :
    (resolveParent n s').1 = (resolveParent n s).1 := by
  unfold resolveParent dir_reopen dir_parse
  cases n.path with
  | none => simp only []; rw [hC]
  | some p =>
    simp only []
    rw [resolveFrom_congr s s' hE hI p ROOT_DIR_SECTOR]
    cases resolveFrom s ROOT_DIR_SECTOR p <;> rfl

/-- Resolution is unaffected by linking a fresh sector `sec` (one with no
object yet) under a new name into directory `d` and registering an object
at `sec`: every path that resolved before resolves to the same directory
afterwards. -/
theorem resolveFrom_extend (s s' : FSState) (d sec : Nat) (nm : String) (obj : Inode)
    (hEd : ∀ j, j ≠ sec →
      s'.entries j = if j = d then s.entries j ++ [(nm, sec)] else s.entries j)
    (hI : s'.inodes = fun x => if x = sec then some obj else s.inodes x)
    (hsec : s.inodes sec = none) :
    ∀ (p : List String) (cur : Nat) (e : Nat),
      resolveFrom s cur p = some e → resolveFrom s' cur p = some e := by
  have hne : ∀ j, isDirSector s j = true → j ≠ sec := by
    intro j hj he
    rw [he] at hj
    unfold isDirSector at hj
    rw [hsec] at hj
    exact absurd hj (by simp)
  have hdir : ∀ j, isDirSector s j = true → isDirSector s' j = true := by
    intro j hj
    unfold isDirSector at hj ⊢
    rw [hI]
    simp only [if_neg (hne j hj)]
    exact hj
  have hlk : ∀ j c mid, j ≠ sec → lookupEntry s j c = some mid →
      lookupEntry s' j c = some mid := by
    intro j c mid hjs hm
    unfold lookupEntry at hm ⊢
    rw [hEd j hjs]
    by_cases hj : j = d
    · rw [hj]
      simp only [if_true]
      rw [List.find?_append]
      obtain ⟨en, hen1, hen2⟩ : ∃ en, (s.entries d).find? (fun e => e.1 == c) = some en
          ∧ en.2 = mid := by
        cases hf : (s.entries j).find? (fun e => e.1 == c) with
        | none => rw [hf] at hm; exact absurd hm (by simp)
        | some en =>
          rw [hf] at hm
          exact ⟨en, by rw [← hj]; exact hf, by simpa using hm⟩
      rw [hen1]
      simp [hen2]
    · simp only [if_neg hj]
      exact hm
  intro p
  induction p with
  | nil =>
    intro cur e h
    unfold resolveFrom at h ⊢
    by_cases hc : isDirSector s cur
    · rw [if_pos (hdir cur hc)]
      rw [if_pos hc] at h
      exact h
    · rw [if_neg hc] at h
      exact absurd h (by simp)
  | cons c rest ih =>
    intro cur e h
    unfold resolveFrom at h ⊢
    by_cases hc : isDirSector s cur
    · rw [if_pos hc] at h
      rw [if_pos (hdir cur hc)]
      cases hl : lookupEntry s cur c with
      | none => rw [hl] at h; exact absurd h (by simp)
      | some mid =>
        rw [hl] at h
        rw [hlk cur c mid (hne cur hc) hl]
        exact ih mid e h
    · rw [if_neg hc] at h
      exact absurd h (by simp)

/-! # Claim C4: reference release in `filesys_remove` -/

/-- C4, counterexample.  On the root path (`filename[0] == 0`,
`filesys.c` lines 162–163) the function returns `false` *without*
`dir_close (dir)`: removing the root leaves the resolved parent
directory's open count one higher than before the call, so the parent
reference is not released on that path. -/
theorem filesys_remove_root_leak_counterexample :
    (filesys_remove nRoot fsW).1 = false
  ∧ ((filesys_remove nRoot fsW).2).openCnt ROOT_DIR_SECTOR
      = fsW.openCnt ROOT_DIR_SECTOR + 1 :=
  ⟨by decide, by decide⟩

/-- C4, witness for the amended statement: removing `"/a"` (a busy
directory, a failing path) leaves all open counts unchanged. -/
theorem filesys_remove_balanced_witness :
    ((filesys_remove nA fsW).2).openCnt = fsW.openCnt :=
  filesys_remove_balanced fsW nA (by decide)

/-! # Claim C8: not-found surfaces as a plain boolean failure -/

/-- C8.  When the parent resolves but the leaf is absent, the failed
lookup's null result flows through the working-directory comparison and
the `inode_is_dir` test without misbehaving: `filesys_remove` returns
plain `false`, every open count is restored, and no directory entry is
touched. -/
theorem filesys_remove_notfound (s : FSState) (n : PName) (d : Nat)
    (hres : (resolveParent n s).1 = some d) (hleaf : n.leaf ≠ "")
    (hlk : lookupEntry s d n.leaf = none) :
    (filesys_remove n s).1 = false
  ∧ ((filesys_remove n s).2).openCnt = s.openCnt
  ∧ ((filesys_remove n s).2).entries = s.entries := by
  unfold filesys_remove
  rw [resolveParent_eq n s d hres]
  simp only []
  rw [if_neg hleaf]
  unfold dir_lookup
  rw [lookupEntry_incCnt, hlk]
  simp only []
  rw [if_neg (by simp : ¬(none : Option Nat) = some s.cwd)]
  unfold inode_is_dir
  simp only []
  rw [if_neg (by simp : ¬false = true)]
  unfold dir_remove
  rw [lookupEntry_incCnt, hlk]
  simp only []
  refine ⟨by trivial, ?_, by trivial⟩
  funext x
  simp [inode_close, dir_close, decCnt, incCnt]
  split_ifs <;> omega

/-- C8, witness: removing the absent `"/nope"`. -/
theorem filesys_remove_notfound_witness :
    (filesys_remove nMissing fsW).1 = false
  ∧ ((filesys_remove nMissing fsW).2).openCnt = fsW.openCnt
  ∧ ((filesys_remove nMissing fsW).2).entries = fsW.entries :=
  filesys_remove_notfound fsW nMissing 1 (by decide) (by decide) (by decide)

/-! # Claim C10: `filesys_open` on an empty leaf -/

/-- C10.  When the path resolves and the leaf is empty, `filesys_open`
returns a handle on the resolved directory's own backing object without
ever closing the reference taken during resolution: the result is
exactly the resolved directory with its count incremented, so its open
count after the call is one greater than before. -/
theorem filesys_open_empty_leaf (s : FSState) (n : PName) (d : Nat)
    (hres : (resolveParent n s).1 = some d) (hleaf : n.leaf = "") :
    filesys_open n s = (some d, incCnt d s)
  ∧ ((filesys_open n s).2).openCnt d = s.openCnt d + 1 := by
  have heq := resolveParent_eq n s d hres
  constructor
  · unfold filesys_open
    rw [heq]
    simp only []
    rw [if_pos hleaf]
    rfl
  · unfold filesys_open
    rw [heq]
    simp only []
    rw [if_pos hleaf]
    simp [file_open, incCnt]

/-- C10, witness: opening the root itself (`nRoot`). -/
theorem filesys_open_empty_leaf_witness :
    filesys_open nRoot fsW = (some 1, incCnt 1 fsW)
  ∧ ((filesys_open nRoot fsW).2).openCnt 1 = fsW.openCnt 1 + 1 :=
  filesys_open_empty_leaf fsW nRoot 1 (by decide) (by decide)

theorem isDirSector_incCnt (i : Nat) (s : FSState) (j : Nat) :
    isDirSector (incCnt i s) j = isDirSector s j := rfl

/-! # Claim C5: the busy guard on directory removal -/

/-- C5.  For an empty directory leaf that is neither the working
directory nor its own parent, the open count `filesys_remove` reads at
the busy check is the count before the call plus one — the remover's
transient lookup reference being the sole extra reference (`dir_open`'s
reference having already been given back by `dir_close (target_dir)`).
If that check-time count exceeds 1 the removal fails and unlinks
nothing; if it is at most 1 the removal proceeds and succeeds. -/
theorem filesys_remove_busy_guard (s : FSState) (n : PName) (d ino : Nat)
    (hres : (resolveParent n s).1 = some d) (hleaf : n.leaf ≠ "")
    (hlk : lookupEntry s d n.leaf = some ino)
    (hncwd : ino ≠ s.cwd) (hnd : ino ≠ d)
    (hdir : isDirSector s ino = true)
    (hempty : s.entries ino = []) :
    ((s.openCnt ino + 1 > 1) →
      (filesys_remove n s).1 = false ∧ ((filesys_remove n s).2).entries = s.entries)
  ∧ ((s.openCnt ino + 1 ≤ 1) → (filesys_remove n s).1 = true) := by
  unfold filesys_remove
  rw [resolveParent_eq n s d hres]
  simp only []
  rw [if_neg hleaf]
  unfold dir_lookup
  rw [lookupEntry_incCnt, hlk]
  simp only []
  rw [if_neg (by simpa using hncwd)]
  have hemp : dir_empty (dir_open (some ino) (incCnt ino (incCnt d s))).1
      (dir_open (some ino) (incCnt ino (incCnt d s))).2 = true := by
    show (s.entries ino).isEmpty = true
    rw [hempty]
    rfl
  have hcnt : inode_open_cnt
      (dir_close (dir_open (some ino) (incCnt ino (incCnt d s))).1
        (dir_open (some ino) (incCnt ino (incCnt d s))).2) (some ino)
      = s.openCnt ino + 1 := by
    show (decCnt ino (incCnt ino (incCnt ino (incCnt d s)))).openCnt ino
        = s.openCnt ino + 1
    simp [decCnt, incCnt, hnd]
  have hdr : (dir_remove d n.leaf
      (dir_close (dir_open (some ino) (incCnt ino (incCnt d s))).1
        (dir_open (some ino) (incCnt ino (incCnt d s))).2)).1 = true := by
    unfold dir_remove
    rw [show lookupEntry
        (dir_close (dir_open (some ino) (incCnt ino (incCnt d s))).1
          (dir_open (some ino) (incCnt ino (incCnt d s))).2) d n.leaf
        = lookupEntry s d n.leaf from rfl, hlk]
  constructor
  · intro hbusy
    split_ifs with h1 h2
    · rw [hcnt] at h2
      omega
    · exact ⟨rfl, rfl⟩
    · exact absurd hdir h1
  · intro hok
    split_ifs with h1 h2
    · exact hdr
    · rw [hcnt] at h2
      exact absurd hok h2
    · exact absurd hdir h1

/-- C5, witness: `"/a"` in `fsW` is empty with one concurrent holder, so
the check-time count is 2 and removal fails. -/
theorem filesys_remove_busy_guard_witness :
    ((fsW.openCnt 2 + 1 > 1) →
      (filesys_remove nA fsW).1 = false
      ∧ ((filesys_remove nA fsW).2).entries = fsW.entries)
  ∧ ((fsW.openCnt 2 + 1 ≤ 1) → (filesys_remove nA fsW).1 = true) :=
  filesys_remove_busy_guard fsW nA 1 2 (by decide) (by decide) (by decide)
    (by decide) (by decide) (by decide) (by decide)

/-! # Claim C6: the create-link partial-failure leak -/

/-- C6.  When resolution succeeds, the leaf is fresh, a sector is
allocated and the object initialized, but linking (`dir_add`) fails,
`filesys_create` returns failure while the created object stays
registered at its sector and the sector is not returned to the free map:
no rollback happens (`filesys.c` lines 79–86). -/
theorem filesys_create_link_failure (s : FSState) (n : PName) (sz : Nat) (isdir : Bool)
    (d sec : Nat) (rest : List Nat)
    (hres : (resolveParent n s).1 = some d)
    (hlk : lookupEntry s d n.leaf = none)
    (hfree : s.freeSectors = sec :: rest)
    (hfail : s.dirExtendFails = true) :
    (filesys_create n sz isdir s).1 = false
  ∧ ((filesys_create n sz isdir s).2).inodes sec
      = some (if isdir then Inode.mk true 0 else Inode.mk false sz)
  ∧ ((filesys_create n sz isdir s).2).freeSectors = rest := by
  unfold filesys_create
  rw [resolveParent_eq n s d hres]
  simp only []
  unfold dir_lookup
  rw [lookupEntry_incCnt, hlk]
  simp only []
  unfold free_map_allocate
  rw [show (incCnt d s).freeSectors = s.freeSectors from rfl, hfree]
  simp only []
  cases isdir with
  | true =>
    rw [if_pos (by decide)]
    unfold dir_create dir_add
    simp only []
    split_ifs with h1
    · exact ⟨rfl, by simp [dir_close, decCnt], rfl⟩
    · exact absurd hfail h1
  | false =>
    rw [if_neg (by decide)]
    unfold inode_create dir_add
    simp only []
    split_ifs with h1 h2 h3
    · exact h2.elim
    · exact ⟨rfl, by simp [dir_close, decCnt], rfl⟩
    · exact h3.elim
    · exact absurd hfail h1

/-- C6, witness: creating `"/new"` while the directory store cannot
extend directories leaks sector 10 and its freshly created object. -/
theorem filesys_create_link_failure_witness :
    (filesys_create nNew 5 false fsLink).1 = false
  ∧ ((filesys_create nNew 5 false fsLink).2).inodes 10
      = some (if false then Inode.mk true 0 else Inode.mk false 5)
  ∧ ((filesys_create nNew 5 false fsLink).2).freeSectors = [11] :=
  filesys_create_link_failure fsLink nNew 5 false 1 10 [11]
    (by decide) (by decide) (by decide) (by decide)

theorem resolveParent_some_path (n : PName) (s : FSState) (d : Nat) (p : List String)
    (hp : n.path = some p) (h : (resolveParent n s).1 = some d) :
    resolveFrom s ROOT_DIR_SECTOR p = some d := by
  unfold resolveParent dir_parse at h
  rw [hp] at h
  simp only [] at h
  cases hr : resolveFrom s ROOT_DIR_SECTOR p with
  | none => rw [hr] at h; exact absurd h (by simp)
  | some e =>
    rw [hr] at h
    simp only [] at h
    cases h
    rfl

theorem create_found_fails (s : FSState) (n : PName) (sz : Nat) (isdir : Bool)
    (d ino : Nat)
    (hres : (resolveParent n s).1 = some d)
    (hlk : lookupEntry s d n.leaf = some ino) :
    (filesys_create n sz isdir s).1 = false := by
  unfold filesys_create
  rw [resolveParent_eq n s d hres]
  simp only []
  unfold dir_lookup
  rw [lookupEntry_incCnt, hlk]

theorem create_existing_aux (s : FSState) (n : PName) (sz : Nat) (isdir : Bool)
    (d ino : Nat)
    (hres : (resolveParent n s).1 = some d)
    (hleaf : n.leaf ≠ "")
    (hlk : lookupEntry s d n.leaf = some ino) :
    (filesys_create n sz isdir s).1 = false
  ∧ ((filesys_create n sz isdir s).2).entries = s.entries
  ∧ ((filesys_create n sz isdir s).2).inodes = s.inodes
  ∧ ((filesys_create n sz isdir s).2).openCnt = s.openCnt
  ∧ (filesys_open n ((filesys_create n sz isdir s).2)).1 = some ino := by
  unfold filesys_create
  rw [resolveParent_eq n s d hres]
  simp only []
  unfold dir_lookup
  rw [lookupEntry_incCnt, hlk]
  simp only []
  refine ⟨by trivial, by trivial, by trivial, ?_, ?_⟩
  · funext x
    simp [dir_close, inode_close, decCnt, incCnt]
    split_ifs <;> omega
  · unfold filesys_open
    have hresX : (resolveParent n
        (dir_close (some d) (inode_close (some ino) (incCnt ino (incCnt d s))))).1
        = some d := by
      rw [resolveParent_fst_congr s
        (dir_close (some d) (inode_close (some ino) (incCnt ino (incCnt d s))))
        rfl rfl rfl n]
      exact hres
    rw [resolveParent_eq _ _ d hresX]
    simp only []
    rw [if_neg hleaf]
    unfold dir_lookup
    rw [show lookupEntry (incCnt d
        (dir_close (some d) (inode_close (some ino) (incCnt ino (incCnt d s))))) d n.leaf
        = lookupEntry s d n.leaf from rfl, hlk]
    rfl

theorem resolveFrom_isDir (s : FSState) :
    ∀ (p : List String) (cur e : Nat),
      resolveFrom s cur p = some e → isDirSector s e = true := by
  intro p
  induction p with
  | nil =>
    intro cur e h
    unfold resolveFrom at h
    by_cases hc : isDirSector s cur
    · rw [if_pos hc] at h
      cases h
      exact hc
    · rw [if_neg hc] at h
      exact absurd h (by simp)
  | cons c rest ih =>
    intro cur e h
    unfold resolveFrom at h
    by_cases hc : isDirSector s cur
    · rw [if_pos hc] at h
      cases hl : lookupEntry s cur c with
      | none => rw [hl] at h; exact absurd h (by simp)
      | some mid => rw [hl] at h; exact ih mid e h
    · rw [if_neg hc] at h
      exact absurd h (by simp)

theorem resolveParent_isDir (n : PName) (s : FSState) (d : Nat)
    (h : (resolveParent n s).1 = some d) (hcwd : isDirSector s s.cwd = true) :
    isDirSector s d = true := by
  cases hp : n.path with
  | none =>
    unfold resolveParent dir_reopen at h
    rw [hp] at h
    simp only [] at h
    cases h
    exact hcwd
  | some p =>
    exact resolveFrom_isDir s p ROOT_DIR_SECTOR d (resolveParent_some_path n s d p hp h)

/-- Inversion of a successful `filesys_create`: it resolved a parent `d`,
found the leaf fresh, took the head `sec` of the free map, and the final
state's directory contents are the old ones with `(leaf, sec)` appended
to `d` (at every sector other than the fresh `sec`), with the new object
registered at `sec`. -/
theorem create_success_inversion (s : FSState) (n : PName) (sz : Nat) (isdir : Bool)
    (s1 : FSState)
    (h : filesys_create n sz isdir s = (true, s1)) :
    ∃ d sec rest,
      (resolveParent n s).1 = some d
      ∧ lookupEntry s d n.leaf = none
      ∧ s.freeSectors = sec :: rest
      ∧ s1.cwd = s.cwd
      ∧ s1.inodes = (fun x => if x = sec then
            some (if isdir then Inode.mk true 0 else Inode.mk false sz)
          else s.inodes x)
      ∧ (∀ j, j ≠ sec → s1.entries j =
          if j = d then s.entries j ++ [(n.leaf, sec)] else s.entries j) := by
  unfold filesys_create at h
  simp only [] at h
  cases hrp : (resolveParent n s).1 with
  | none =>
    rw [hrp] at h
    simp only [] at h
    exact absurd (congrArg Prod.fst h) (by simp)
  | some d =>
    rw [resolveParent_eq n s d hrp] at h
    simp only [] at h
    unfold dir_lookup at h
    rw [lookupEntry_incCnt] at h
    cases hle : lookupEntry s d n.leaf with
    | some ino =>
      rw [hle] at h
      simp only [] at h
      exact absurd (congrArg Prod.fst h) (by simp)
    | none =>
      rw [hle] at h
      simp only [] at h
      unfold free_map_allocate at h
      rw [show (incCnt d s).freeSectors = s.freeSectors from rfl] at h
      cases hfs : s.freeSectors with
      | nil =>
        rw [hfs] at h
        simp only [] at h
        exact absurd (congrArg Prod.fst h) (by simp)
      | cons sec rest =>
        rw [hfs] at h
        simp only [] at h
        refine ⟨d, sec, rest, rfl, hle, rfl, ?_⟩
        cases isdir with
        | true =>
          rw [if_pos (by decide)] at h
          unfold dir_create dir_add at h
          simp only [] at h
          split_ifs at h with hdef
          · exact absurd (congrArg Prod.fst h) (by simp)
          · split at h
            · exact absurd (congrArg Prod.fst h) (by simp)
            · have hs1 : s1 = _ := (congrArg Prod.snd h).symm
              subst hs1
              refine ⟨rfl, ?_, ?_⟩
              · funext x
                by_cases hx : x = sec <;> simp [hx, dir_close, decCnt, incCnt]
              · intro j hj
                by_cases hjd : j = d
                · subst hjd
                  simp [dir_close, decCnt, incCnt, hj]
                · simp [dir_close, decCnt, incCnt, hjd, hj]
        | false =>
          rw [if_neg (by decide)] at h
          unfold inode_create dir_add at h
          simp only [] at h
          split_ifs at h with hdef
          · exact absurd (congrArg Prod.fst h) (by simp)
          · split at h
            · exact absurd (congrArg Prod.fst h) (by simp)
            · have hs1 : s1 = _ := (congrArg Prod.snd h).symm
              subst hs1
              refine ⟨rfl, ?_, ?_⟩
              · funext x
                by_cases hx : x = sec <;> simp [hx, dir_close, decCnt, incCnt]
              · intro j hj
                by_cases hjd : j = d
                · subst hjd
                  simp [dir_close, decCnt, incCnt, hj]
                · simp [dir_close, decCnt, incCnt, hjd, hj]

/-! # Claim C7: create on an existing leaf -/

/-- C7.  First part: when the leaf already exists in the resolved parent,
`filesys_create` fails, closes the handle the lookup produced (all open
counts restored), mutates nothing (entries and objects unchanged), and
the existing object is still reachable via `filesys_open`, which returns
it.  Second part: after any successful create (from a state whose free
map only holds unused sectors and whose working directory is a
directory), calling create again with the same name and parent returns
failure. -/
theorem filesys_create_existing_leaf (s : FSState) (n : PName) (sz : Nat) (isdir : Bool) :
    (∀ d ino, (resolveParent n s).1 = some d → n.leaf ≠ "" →
      lookupEntry s d n.leaf = some ino →
      (filesys_create n sz isdir s).1 = false
      ∧ ((filesys_create n sz isdir s).2).entries = s.entries
      ∧ ((filesys_create n sz isdir s).2).inodes = s.inodes
      ∧ ((filesys_create n sz isdir s).2).openCnt = s.openCnt
      ∧ (filesys_open n ((filesys_create n sz isdir s).2)).1 = some ino)
  ∧ (∀ s1, (∀ x ∈ s.freeSectors, s.inodes x = none) →
      isDirSector s s.cwd = true →
      filesys_create n sz isdir s = (true, s1) →
      (filesys_create n sz isdir s1).1 = false) := by
  constructor
  · intro d ino hres hleaf hlk
    exact create_existing_aux s n sz isdir d ino hres hleaf hlk
  · intro s1 hfm hcwd hsucc
    obtain ⟨d, sec, rest, hrp, hle, hfs, hcwd1, hinodes1, hentries1⟩ :=
      create_success_inversion s n sz isdir s1 hsucc
    have hsecnone : s.inodes sec = none := hfm sec (by rw [hfs]; exact List.mem_cons_self _ _)
    have hdi : isDirSector s d = true := resolveParent_isDir n s d hrp hcwd
    have hdsec : d ≠ sec := by
      intro he
      rw [he] at hdi
      unfold isDirSector at hdi
      rw [hsecnone] at hdi
      exact absurd hdi (by simp)
    have hres2 : (resolveParent n s1).1 = some d := by
      cases hp : n.path with
      | none =>
        have hd : d = s.cwd := by
          unfold resolveParent dir_reopen at hrp
          rw [hp] at hrp
          simp only [] at hrp
          exact (Option.some.inj hrp).symm
        unfold resolveParent dir_reopen
        rw [hp]
        simp only []
        rw [hcwd1, hd]
      | some p =>
        have hrf := resolveParent_some_path n s d p hp hrp
        have hrf2 : resolveFrom s1 ROOT_DIR_SECTOR p = some d :=
          resolveFrom_extend s s1 d sec n.leaf
            (if isdir then Inode.mk true 0 else Inode.mk false sz)
            hentries1 hinodes1 hsecnone p ROOT_DIR_SECTOR d hrf
        unfold resolveParent dir_parse
        rw [hp]
        simp only []
        rw [hrf2]
    have hlk2 : lookupEntry s1 d n.leaf = some sec := by
      unfold lookupEntry
      rw [hentries1 d hdsec]
      rw [if_pos rfl]
      rw [List.find?_append]
      have hfind : (s.entries d).find? (fun e => e.1 == n.leaf) = none := by
        unfold lookupEntry at hle
        cases hf : (s.entries d).find? (fun e => e.1 == n.leaf) with
        | none => rfl
        | some en => rw [hf] at hle; exact absurd hle (by simp)
      rw [hfind]
      simp
    exact create_found_fails s1 n sz isdir d sec hres2 hlk2

/-- C7, witness: `"/a"` already exists in `fsW` (first part), and
creating `"/new"` twice fails the second time (second part). -/
theorem filesys_create_existing_leaf_witness :
    ((filesys_create nA 5 false fsW).1 = false
      ∧ ((filesys_create nA 5 false fsW).2).entries = fsW.entries
      ∧ ((filesys_create nA 5 false fsW).2).inodes = fsW.inodes
      ∧ ((filesys_create nA 5 false fsW).2).openCnt = fsW.openCnt
      ∧ (filesys_open nA ((filesys_create nA 5 false fsW).2)).1 = some 2)
  ∧ (filesys_create nNew 5 false ((filesys_create nNew 5 false fsW).2)).1 = false := by
  constructor
  · exact (filesys_create_existing_leaf fsW nA 5 false).1 1 2
      (by decide) (by decide) (by decide)
  · have hpair : filesys_create nNew 5 false fsW
        = (true, (filesys_create nNew 5 false fsW).2) := by
      have h1 : (filesys_create nNew 5 false fsW).1 = true := by decide
      conv_lhs => rw [← Prod.mk.eta (p := filesys_create nNew 5 false fsW)]
      rw [h1]
    exact (filesys_create_existing_leaf fsW nNew 5 false).2
      ((filesys_create nNew 5 false fsW).2) (by decide) (by decide) hpair
